import Mathlib

set_option linter.unusedSectionVars false

/-!
Shallow embedding of the `simple-vector` repository: the `ArrayPtr<Type>`
heap-buffer owner (src/simple-vector/array_ptr.h) and the `SimpleVector<Type>`
growable array (src/simple-vector/simple_vector.h).

The buffer of a vector is modelled as a `List α` whose length is the allocated
capacity; slots `[0, size)` are the live elements and slots `[size, capacity)`
are allocated but logically stale, exactly as in the source.  `size_t`
arithmetic is modelled on `Nat`: every size reached through the public API is
bounded by the number of elements actually allocated, far below `2^64`, so
wrap-around never occurs on the modelled states.  `new Type[n]{}`
value-initializes, so a fresh buffer is `List.replicate n default`.
-/

/-- State of a `SimpleVector<Type>`: the contents of the `ArrayPtr` buffer
(one entry per allocated slot), the logical `size_` and the `capacity_`. -/
structure SimpleVector (α : Type) where
  items : List α
  size : Nat
  capacity : Nat
deriving DecidableEq, Repr

namespace SimpleVector

variable {α : Type} [Inhabited α]

/-- Well-formedness of a vector state: `size_ ≤ capacity_` and the buffer
holds exactly `capacity_` slots. -/
def Wf (v : SimpleVector α) : Prop :=
  v.size ≤ v.capacity ∧ v.items.length = v.capacity

instance decidableWf (v : SimpleVector α) : Decidable v.Wf := by
  unfold Wf; infer_instance

/-- Default constructor `SimpleVector()`: null buffer, `size_ = 0`, `capacity_ = 0`. -/
def empty : SimpleVector α :=
  { items := [], size := 0, capacity := 0 }

/-- Sized constructor `SimpleVector(size_t size)`: `ArrayPtr(size)` value-initializes `size`
slots (`new Type[size]{}`); `size_ = capacity_ = size`. -/
def mkSized (n : Nat) : SimpleVector α :=
  { items := List.replicate n (default : α), size := n, capacity := n }

/-- Fill constructor `SimpleVector(size_t size, const Type& value)`: a default buffer of `size`
slots, then (unless `size == 0`, where the fill is skipped over an empty
range) `std::fill(begin(), end(), value)` over all `size` slots. -/
def mkFill (n : Nat) (value : α) : SimpleVector α :=
  { items := List.replicate n value, size := n, capacity := n }

/-- List constructor `SimpleVector(std::initializer_list<Type> init)`: a default buffer of
`init.size()` slots fully overwritten by `std::copy` from the list. -/
def fromList (l : List α) : SimpleVector α :=
  { items := l, size := l.length, capacity := l.length }

/-- Copy constructor: a fresh default buffer of `other.GetCapacity()` slots
receives `std::copy(other.begin(), other.end(), ...)`, i.e. only the live
range; the stale slots of the source are not copied. -/
def copyCtor (other : SimpleVector α) : SimpleVector α :=
  { items := other.items.take other.size
      ++ List.replicate (other.capacity - other.size) (default : α),
    size := other.size, capacity := other.capacity }

/-- Move constructor: the first component is the newly built vector, the
second the moved-from source (`items_` nulled by the `ArrayPtr` move,
`size_` and `capacity_` exchanged with 0). -/
def moveCtor (other : SimpleVector α) : SimpleVector α × SimpleVector α :=
  ({ items := other.items, size := other.size, capacity := other.capacity },
   { items := [], size := 0, capacity := 0 })

/-- Member `swap`: exchanges `items_`, `size_` and `capacity_` with the other vector. -/
def swap (a b : SimpleVector α) : SimpleVector α × SimpleVector α :=
  ({ items := b.items, size := b.size, capacity := b.capacity },
   { items := a.items, size := a.size, capacity := a.capacity })

/-- Copy assignment `operator=(const SimpleVector& rhs)`: early return when `this == &rhs`
(the `sameObject` flag models the pointer comparison); otherwise a temporary
copy of `rhs` is built and swapped into `*this`. -/
def assignCopy (self rhs : SimpleVector α) (sameObject : Bool) : SimpleVector α :=
  if sameObject then self
  else (swap self (copyCtor rhs)).1

/-- Move assignment `operator=(SimpleVector&& rhs)`: early return when `this == &rhs`;
otherwise `items_ = std::move(rhs.items_)` (the `ArrayPtr` move-assign frees
the old buffer and takes the pointer) and `size_`/`capacity_` are exchanged
with 0.  First component: the assigned-to vector; second: the moved-from rhs. -/
def assignMove (self rhs : SimpleVector α) (sameObject : Bool) :
    SimpleVector α × SimpleVector α :=
  if sameObject then (self, rhs)
  else ({ items := rhs.items, size := rhs.size, capacity := rhs.capacity },
        { items := [], size := 0, capacity := 0 })

/-- Method `Resize(new_size)`, the three-way case split of the source: grow into a
fresh buffer of `max(new_size, capacity_ == 0 ? 1 : capacity_ * 2)` default
slots with the live elements moved in; or default the newly exposed slots
`[size_, new_size)`; or just set `size_`. -/
def Resize (v : SimpleVector α) (new_size : Nat) : SimpleVector α :=
  if v.capacity < new_size then
    let new_capacity := max new_size (if v.capacity = 0 then 1 else v.capacity * 2)
    let arr_tmp := List.replicate new_capacity (default : α)
    { items := v.items.take v.size ++ arr_tmp.drop v.size,
      size := new_size, capacity := new_capacity }
  else if v.size < new_size then
    { items := v.items.take v.size
        ++ List.replicate (new_size - v.size) (default : α)
        ++ v.items.drop new_size,
      size := new_size, capacity := v.capacity }
  else
    { v with size := new_size }

/-- Method `CheckCapacityAndResize()`: `Resize(size_ + 1)` when `size_ >= capacity_`,
else `++size_`. -/
def CheckCapacityAndResize (v : SimpleVector α) : SimpleVector α :=
  if v.capacity ≤ v.size then Resize v (v.size + 1)
  else { v with size := v.size + 1 }

/-- Method `PushBack(const Type& item)`: ensure capacity (which already increments
`size_`), then write `item` into slot `size_ - 1`. -/
def PushBack (v : SimpleVector α) (item : α) : SimpleVector α :=
  let w := CheckCapacityAndResize v
  { w with items := w.items.set (w.size - 1) item }

/-- Method `PushBack(Type&& item)`: the same state transformation as the copying
overload; transferring the value instead of copying it is invisible in a
value model. -/
def PushBackMove (v : SimpleVector α) (item : α) : SimpleVector α :=
  let w := CheckCapacityAndResize v
  { w with items := w.items.set (w.size - 1) item }

/-- Method `PopBack()`: `--size_`.  Precondition `!IsEmpty()` (assert). -/
def PopBack (v : SimpleVector α) : SimpleVector α :=
  { v with size := v.size - 1 }

/-- Method `Clear()`: `size_ = 0`, capacity and buffer untouched. -/
def Clear (v : SimpleVector α) : SimpleVector α :=
  { v with size := 0 }

/-- Query `GetSize()`. -/
def GetSize (v : SimpleVector α) : Nat := v.size

/-- Query `GetCapacity()`. -/
def GetCapacity (v : SimpleVector α) : Nat := v.capacity

/-- Query `IsEmpty()`. -/
def IsEmpty (v : SimpleVector α) : Bool := v.size == 0

/-- Method `At(index)`: throws `std::out_of_range` when `index >= size_` (modelled as
`none`), else returns `items_[index]`.  `At` reads the state and never
modifies it. -/
def At (v : SimpleVector α) (index : Nat) : Option α :=
  if v.size ≤ index then none
  else some (v.items.getD index default)

/-- Method `Reserve(new_capacity)`: no-op unless `capacity_ < new_capacity`;
otherwise a fresh default buffer of exactly `new_capacity` slots receives the
live elements via `std::move(begin(), end(), ...)`; `size_` is unchanged. -/
def Reserve (v : SimpleVector α) (new_capacity : Nat) : SimpleVector α :=
  if v.capacity < new_capacity then
    let arr_tmp := List.replicate new_capacity (default : α)
    { items := v.items.take v.size ++ arr_tmp.drop v.size,
      size := v.size, capacity := new_capacity }
  else v

/-- Proxy constructor `SimpleVector(ReserveProxyObj rhs)`: default-constructed members, then
`Reserve(rhs.GetCapacity())`. -/
def fromReserveProxy (k : Nat) : SimpleVector α :=
  Reserve (empty : SimpleVector α) k

/-- Method `Insert(ConstIterator pos, const Type& value)`: `pos` is the index
`pos - begin() ∈ [0, size_]`.  At the end it is `PushBack` returning
`end() - 1`; otherwise capacity is ensured (incrementing `size_`), the tail
`[pos, size_ - 1)` is shifted one slot right by `std::copy_backward`, and
`value` is written into the opened slot `pos`, whose index is returned. -/
def Insert (v : SimpleVector α) (pos : Nat) (value : α) : SimpleVector α × Nat :=
  if pos = v.size then
    let w := PushBack v value
    (w, w.size - 1)
  else
    let w := CheckCapacityAndResize v
    let shifted := w.items.take (pos + 1)
        ++ (w.items.drop pos).take (w.size - 1 - pos)
        ++ w.items.drop w.size
    ({ w with items := shifted.set pos value }, pos)

/-- Method `Insert(ConstIterator pos, Type&& value)`: the same state transformation
via `std::move_backward` and a moved write. -/
def InsertMove (v : SimpleVector α) (pos : Nat) (value : α) : SimpleVector α × Nat :=
  if pos = v.size then
    let w := PushBackMove v value
    (w, w.size - 1)
  else
    let w := CheckCapacityAndResize v
    let shifted := w.items.take (pos + 1)
        ++ (w.items.drop pos).take (w.size - 1 - pos)
        ++ w.items.drop w.size
    ({ w with items := shifted.set pos value }, pos)

/-- Method `Erase(ConstIterator pos)`: when `pos < end() - 1` the tail
`[pos + 1, size_)` is moved one slot left by `std::move`; `size_` is
decremented; returns `&items_[pos]`, i.e. index `pos`.  Precondition
`begin() <= pos < end()` (assert). -/
def Erase (v : SimpleVector α) (pos : Nat) : SimpleVector α × Nat :=
  if pos < v.size - 1 then
    ({ items := v.items.take pos
         ++ (v.items.drop (pos + 1)).take (v.size - 1 - pos)
         ++ v.items.drop (v.size - 1),
       size := v.size - 1, capacity := v.capacity }, pos)
  else
    ({ v with size := v.size - 1 }, pos)

/-- Iterated state: `n` consecutive `PushBack` calls of the values `f 0, ..., f (n-1)`
starting from the default-constructed vector. -/
def pushSeq (f : Nat → α) : Nat → SimpleVector α
  | 0 => empty
  | n + 1 => PushBack (pushSeq f n) (f n)

end SimpleVector

/-!
`ArrayPtr<Type>` ownership model.  Raw pointers live in a store of cells
indexed by `Nat` (one cell per `ArrayPtr` object); a cell holds `some a` when
the object owns the block at address `a` and `none` when its pointer is null.
The list `freed` records the addresses passed to `delete[]`, in order.
-/

namespace ArrayPtr

/-- Move constructor `ArrayPtr(ArrayPtr&& other)`: `raw_ptr_ = std::exchange(other.raw_ptr_,
nullptr)`.  First component: the pointer of the new object; second: the
pointer of the moved-from source. -/
def moveCtorPtr (other : Option Nat) : Option Nat × Option Nat :=
  (other, none)

/-- Move assignment `operator=(ArrayPtr&& other)` with `*this` at cell `i` and `other` at
cell `j` of the store (`i = j` is self-move-assignment), statement by
statement: `if (raw_ptr_) delete[] raw_ptr_;` then
`raw_ptr_ = std::exchange(other.raw_ptr_, nullptr)` — `std::exchange` reads
the (possibly shared) field at `j`, stores null there, and its returned old
value is then written into the field at `i`. -/
def moveAssignPtr (store : Nat → Option Nat) (i j : Nat) (freed : List Nat) :
    (Nat → Option Nat) × List Nat :=
  let freed2 := match store i with
    | some p => freed ++ [p]
    | none => freed
  let tmp := store j
  let store1 := fun k => if k = j then none else store k
  let store2 := fun k => if k = i then tmp else store1 k
  (store2, freed2)

end ArrayPtr

namespace SimpleVector

variable {α : Type} [Inhabited α]

/-! ### Helper lemmas about the capacity machinery -/

theorem size_CheckCapacityAndResize (v : SimpleVector α) :
    (CheckCapacityAndResize v).size = v.size + 1 := by
  simp only [CheckCapacityAndResize, Resize]
  split_ifs <;> rfl

theorem capacity_CheckCapacityAndResize (v : SimpleVector α) :
    (CheckCapacityAndResize v).capacity =
      if v.capacity ≤ v.size then
        max (v.size + 1) (if v.capacity = 0 then 1 else v.capacity * 2)
      else v.capacity := by
  simp only [CheckCapacityAndResize, Resize]
  split_ifs <;> first | rfl | (exfalso; omega)

theorem items_CheckCapacityAndResize (v : SimpleVector α) :
    (CheckCapacityAndResize v).items =
      if v.capacity ≤ v.size then
        v.items.take v.size ++
          (List.replicate (max (v.size + 1) (if v.capacity = 0 then 1 else v.capacity * 2))
            (default : α)).drop v.size
      else v.items := by
  simp only [CheckCapacityAndResize, Resize]
  split_ifs <;> first | rfl | (exfalso; omega)

theorem wf_Resize (v : SimpleVector α) (hv : v.Wf) (n : Nat) : (Resize v n).Wf := by
  obtain ⟨h1, h2⟩ := hv
  simp only [Wf, Resize]
  split_ifs with hg hs hc <;>
    simp only [List.length_append, List.length_take, List.length_drop,
      List.length_replicate] <;>
    constructor <;> omega

theorem wf_CheckCapacityAndResize (v : SimpleVector α) (hv : v.Wf) :
    (CheckCapacityAndResize v).Wf := by
  simp only [CheckCapacityAndResize]
  split_ifs with h
  · exact wf_Resize v hv _
  · obtain ⟨h1, h2⟩ := hv
    exact ⟨by simp; omega, h2⟩

theorem wf_PushBack (v : SimpleVector α) (hv : v.Wf) (x : α) : (PushBack v x).Wf := by
  obtain ⟨h1, h2⟩ := wf_CheckCapacityAndResize v hv
  exact ⟨h1, by simp only [PushBack, List.length_set]; exact h2⟩

theorem size_PushBack (v : SimpleVector α) (x : α) :
    (PushBack v x).size = v.size + 1 :=
  size_CheckCapacityAndResize v

theorem capacity_PushBack (v : SimpleVector α) (x : α) :
    (PushBack v x).capacity =
      if v.capacity ≤ v.size then
        max (v.size + 1) (if v.capacity = 0 then 1 else v.capacity * 2)
      else v.capacity :=
  capacity_CheckCapacityAndResize v

/-! ### Well-formedness of every constructor and operation -/

theorem wf_empty : (empty : SimpleVector α).Wf := by
  simp [Wf, empty]

theorem wf_mkSized (n : Nat) : (mkSized n : SimpleVector α).Wf := by
  simp [Wf, mkSized]

theorem wf_mkFill (n : Nat) (x : α) : (mkFill n x).Wf := by
  simp [Wf, mkFill]

theorem wf_fromList (l : List α) : (fromList l).Wf := by
  simp [Wf, fromList]

theorem wf_copyCtor (v : SimpleVector α) (hv : v.Wf) : (copyCtor v).Wf := by
  obtain ⟨h1, h2⟩ := hv
  refine ⟨h1, ?_⟩
  simp only [copyCtor, List.length_append, List.length_take, List.length_replicate]
  omega

theorem wf_moveCtor (v : SimpleVector α) (hv : v.Wf) :
    (moveCtor v).1.Wf ∧ (moveCtor v).2.Wf :=
  ⟨hv, by simp [Wf, moveCtor]⟩

theorem wf_swap (v w : SimpleVector α) (hv : v.Wf) (hw : w.Wf) :
    (swap v w).1.Wf ∧ (swap v w).2.Wf :=
  ⟨hw, hv⟩

theorem wf_assignCopy (v w : SimpleVector α) (hv : v.Wf) (hw : w.Wf) (b : Bool) :
    (assignCopy v w b).Wf := by
  cases b
  · simpa [assignCopy, swap] using wf_copyCtor w hw
  · simpa [assignCopy] using hv

theorem wf_assignMove (v w : SimpleVector α) (hv : v.Wf) (hw : w.Wf) (b : Bool) :
    (assignMove v w b).1.Wf ∧ (assignMove v w b).2.Wf := by
  cases b
  · exact ⟨hw, by simp [Wf, assignMove]⟩
  · exact ⟨by simpa [assignMove] using hv, by simpa [assignMove] using hw⟩

theorem wf_PushBackMove (v : SimpleVector α) (hv : v.Wf) (x : α) :
    (PushBackMove v x).Wf :=
  wf_PushBack v hv x

theorem wf_PopBack (v : SimpleVector α) (hv : v.Wf) : (PopBack v).Wf := by
  obtain ⟨h1, h2⟩ := hv
  exact ⟨by simp [PopBack]; omega, h2⟩

theorem wf_Clear (v : SimpleVector α) (hv : v.Wf) : (Clear v).Wf := by
  obtain ⟨h1, h2⟩ := hv
  exact ⟨by simp [Clear], h2⟩

theorem wf_Reserve (v : SimpleVector α) (hv : v.Wf) (k : Nat) : (Reserve v k).Wf := by
  obtain ⟨h1, h2⟩ := hv
  simp only [Wf, Reserve]
  split_ifs with h
  · simp only [List.length_append, List.length_take, List.length_drop,
      List.length_replicate]
    constructor <;> omega
  · exact ⟨h1, h2⟩

theorem wf_fromReserveProxy (k : Nat) : (fromReserveProxy k : SimpleVector α).Wf :=
  wf_Reserve empty wf_empty k

/-- Unfolding of `Insert` at a non-end position. -/
theorem Insert_eq_of_ne (v : SimpleVector α) (pos : Nat) (x : α) (hpe : pos ≠ v.size) :
    Insert v pos x =
      ({ CheckCapacityAndResize v with
          items := ((CheckCapacityAndResize v).items.take (pos + 1)
            ++ ((CheckCapacityAndResize v).items.drop pos).take
                ((CheckCapacityAndResize v).size - 1 - pos)
            ++ (CheckCapacityAndResize v).items.drop (CheckCapacityAndResize v).size).set
              pos x },
       pos) := by
  simp only [Insert, if_neg hpe]

/-- Unfolding of `InsertMove` at a non-end position: same state change as `Insert`. -/
theorem InsertMove_eq_of_ne (v : SimpleVector α) (pos : Nat) (x : α) (hpe : pos ≠ v.size) :
    InsertMove v pos x = Insert v pos x := by
  simp only [Insert, InsertMove, if_neg hpe, PushBack, PushBackMove]

/-- Lemma: `InsertMove` and `Insert` perform the same state transformation everywhere. -/
theorem InsertMove_eq_Insert (v : SimpleVector α) (pos : Nat) (x : α) :
    InsertMove v pos x = Insert v pos x := by
  by_cases hpe : pos = v.size
  · simp only [Insert, InsertMove, if_pos hpe, PushBack, PushBackMove]
  · exact InsertMove_eq_of_ne v pos x hpe

theorem wf_Insert (v : SimpleVector α) (hv : v.Wf) (pos : Nat) (hpos : pos ≤ v.size)
    (x : α) : (Insert v pos x).1.Wf := by
  by_cases hpe : pos = v.size
  · simp only [Insert, if_pos hpe]
    exact wf_PushBack v hv x
  · have hplt : pos < v.size := lt_of_le_of_ne hpos hpe
    obtain ⟨h1, h2⟩ := wf_CheckCapacityAndResize v hv
    have hs := size_CheckCapacityAndResize v
    rw [Insert_eq_of_ne v pos x hpe]
    refine ⟨h1, ?_⟩
    simp only [List.length_set, List.length_append, List.length_take, List.length_drop]
    omega

theorem wf_InsertMove (v : SimpleVector α) (hv : v.Wf) (pos : Nat) (hpos : pos ≤ v.size)
    (x : α) : (InsertMove v pos x).1.Wf := by
  rw [InsertMove_eq_Insert]
  exact wf_Insert v hv pos hpos x

theorem wf_Erase (v : SimpleVector α) (hv : v.Wf) (pos : Nat) : (Erase v pos).1.Wf := by
  obtain ⟨h1, h2⟩ := hv
  simp only [Erase, Wf]
  split_ifs with h <;> dsimp only
  · constructor
    · omega
    · simp only [List.length_append, List.length_take, List.length_drop]
      omega
  · exact ⟨by omega, h2⟩

/-! ### Claim C2: the invariant `size ≤ capacity` -/

/-- C2: every state reachable through the public operations satisfies
`size ≤ capacity` (bundled in `Wf` with the fact that the buffer holds exactly
`capacity` slots): each constructor establishes the invariant and every public
operation — PushBack (both overloads), PopBack, Insert (both overloads),
Erase, Resize, Reserve, Clear, swap, copy and move assignment — preserves it,
under the documented preconditions of the operation. -/
theorem C2_invariant (v w : SimpleVector α) (hv : v.Wf) (hw : w.Wf)
    (n : Nat) (x : α) (l : List α) (pos : Nat) (hpos : pos ≤ v.size) (b : Bool) :
    (empty : SimpleVector α).Wf ∧
    (mkSized n : SimpleVector α).Wf ∧
    (mkFill n x).Wf ∧
    (fromList l).Wf ∧
    (fromReserveProxy n : SimpleVector α).Wf ∧
    (copyCtor v).Wf ∧
    (moveCtor v).1.Wf ∧ (moveCtor v).2.Wf ∧
    (swap v w).1.Wf ∧ (swap v w).2.Wf ∧
    (assignCopy v w b).Wf ∧
    (assignMove v w b).1.Wf ∧ (assignMove v w b).2.Wf ∧
    (PushBack v x).Wf ∧ (PushBackMove v x).Wf ∧
    (PopBack v).Wf ∧
    (Insert v pos x).1.Wf ∧ (InsertMove v pos x).1.Wf ∧
    (Erase v pos).1.Wf ∧
    (Resize v n).Wf ∧
    (Reserve v n).Wf ∧
    (Clear v).Wf :=
  ⟨wf_empty, wf_mkSized n, wf_mkFill n x, wf_fromList l, wf_fromReserveProxy n,
   wf_copyCtor v hv, (wf_moveCtor v hv).1, (wf_moveCtor v hv).2,
   (wf_swap v w hv hw).1, (wf_swap v w hv hw).2,
   wf_assignCopy v w hv hw b,
   (wf_assignMove v w hv hw b).1, (wf_assignMove v w hv hw b).2,
   wf_PushBack v hv x, wf_PushBackMove v hv x,
   wf_PopBack v hv,
   wf_Insert v hv pos hpos x, wf_InsertMove v hv pos hpos x,
   wf_Erase v hv pos,
   wf_Resize v hv n,
   wf_Reserve v hv n,
   wf_Clear v hv⟩

/-- Witness for C2 at concrete inputs: the vector `[5]`, the vector `[3, 3]`,
`n = 2`, `x = 7`, `l = [4]`, insertion position `0`. -/
theorem C2_invariant_witness :
    (empty : SimpleVector Nat).Wf ∧
    (mkSized 2 : SimpleVector Nat).Wf ∧
    (mkFill 2 (7 : Nat)).Wf ∧
    (fromList [(4 : Nat)]).Wf ∧
    (fromReserveProxy 2 : SimpleVector Nat).Wf ∧
    (copyCtor (fromList [(5 : Nat)])).Wf ∧
    (moveCtor (fromList [(5 : Nat)])).1.Wf ∧ (moveCtor (fromList [(5 : Nat)])).2.Wf ∧
    (swap (fromList [(5 : Nat)]) (mkFill 2 3)).1.Wf ∧
    (swap (fromList [(5 : Nat)]) (mkFill 2 3)).2.Wf ∧
    (assignCopy (fromList [(5 : Nat)]) (mkFill 2 3) false).Wf ∧
    (assignMove (fromList [(5 : Nat)]) (mkFill 2 3) false).1.Wf ∧
    (assignMove (fromList [(5 : Nat)]) (mkFill 2 3) false).2.Wf ∧
    (PushBack (fromList [(5 : Nat)]) 7).Wf ∧ (PushBackMove (fromList [(5 : Nat)]) 7).Wf ∧
    (PopBack (fromList [(5 : Nat)])).Wf ∧
    (Insert (fromList [(5 : Nat)]) 0 7).1.Wf ∧ (InsertMove (fromList [(5 : Nat)]) 0 7).1.Wf ∧
    (Erase (fromList [(5 : Nat)]) 0).1.Wf ∧
    (Resize (fromList [(5 : Nat)]) 2).Wf ∧
    (Reserve (fromList [(5 : Nat)]) 2).Wf ∧
    (Clear (fromList [(5 : Nat)])).Wf :=
  C2_invariant (fromList [(5 : Nat)]) (mkFill 2 3) (by decide) (by decide)
    2 7 [4] 0 (by decide) false

/-! ### Claim C1: the growth policy -/

theorem size_pushSeq (f : Nat → α) : ∀ n, (pushSeq f n).size = n := by
  intro n
  induction n with
  | zero => rfl
  | succ n ih => rw [pushSeq, size_PushBack, ih]

theorem capacity_Insert_of_ne (v : SimpleVector α) (pos : Nat) (x : α)
    (hpe : pos ≠ v.size) :
    (Insert v pos x).1.capacity = (CheckCapacityAndResize v).capacity := by
  rw [Insert_eq_of_ne v pos x hpe]

/-- Capacity after `n` consecutive `PushBack` calls starting from the default
vector: the least power of two that is at least `n` (for `n ≥ 1`), i.e. the
doubling-with-floor-one sequence `1, 2, 4, 8, ...`. -/
theorem capacity_pushSeq (f : Nat → α) :
    ∀ n, 1 ≤ n → (pushSeq f n).capacity = 2 ^ Nat.clog 2 n := by
  intro n
  induction n with
  | zero => intro h; exact absurd h (by omega)
  | succ n ih =>
    intro _
    rcases Nat.eq_zero_or_pos n with hn0 | hn1
    · subst hn0
      show (PushBack (pushSeq f 0) (f 0)).capacity = 2 ^ Nat.clog 2 1
      rw [capacity_PushBack]
      norm_num [pushSeq, empty, Nat.clog_one_right]
    · have ih1 := ih hn1
      have hsz : (pushSeq f n).size = n := size_pushSeq f n
      have hK : n ≤ 2 ^ Nat.clog 2 n := Nat.le_pow_clog (by norm_num) n
      show (PushBack (pushSeq f n) (f n)).capacity = 2 ^ Nat.clog 2 (n + 1)
      rw [capacity_PushBack, hsz, ih1]
      by_cases hlt : n < 2 ^ Nat.clog 2 n
      · rw [if_neg (by omega)]
        have h2n : 2 ≤ n := by
          rcases Nat.lt_or_ge n 2 with hc | hc
          · exfalso
            have hn1' : n = 1 := by omega
            rw [hn1', Nat.clog_one_right] at hlt
            simp at hlt
          · exact hc
        have hlow : 2 ^ (Nat.clog 2 n - 1) < n :=
          Nat.pow_pred_clog_lt_self (by norm_num) (by omega)
        have hub : Nat.clog 2 (n + 1) ≤ Nat.clog 2 n :=
          (Nat.le_pow_iff_clog_le (by norm_num)).mp (by omega)
        have hK1 : 1 ≤ Nat.clog 2 n := by
          rcases Nat.eq_zero_or_pos (Nat.clog 2 n) with h0 | h0
          · rw [h0] at hlt; simp at hlt; omega
          · exact h0
        have hlb : Nat.clog 2 n - 1 < Nat.clog 2 (n + 1) :=
          (Nat.pow_lt_iff_lt_clog (by norm_num)).mp (by omega)
        have hce : Nat.clog 2 n = Nat.clog 2 (n + 1) := by omega
        rw [hce]
      · have heq : n = 2 ^ Nat.clog 2 n := le_antisymm hK (by omega)
        rw [if_pos (by omega)]
        have hpos : 0 < 2 ^ Nat.clog 2 n := by positivity
        rw [if_neg (by omega : ¬ 2 ^ Nat.clog 2 n = 0)]
        have hclog : Nat.clog 2 (n + 1) = Nat.clog 2 n + 1 := by
          apply le_antisymm
          · apply (Nat.le_pow_iff_clog_le (by norm_num)).mp
            rw [pow_succ]
            omega
          · apply (Nat.pow_lt_iff_lt_clog (by norm_num)).mp
            omega
        rw [hclog, pow_succ]
        omega

/-- C1: on a full vector (`size = capacity`), `PushBack` and every non-end
`Insert` (both overloads) set the capacity to
`max(size + 1, capacity == 0 ? 1 : capacity * 2)`; consequently `n ≥ 1`
consecutive `PushBack` calls starting from the empty vector of capacity 0
leave the capacity at the least power of two ≥ `n`, so the capacities visited
are exactly `1, 2, 4, 8, ...` (doubling with floor 1). -/
theorem C1_growth_policy (v : SimpleVector α) (x : α) (pos : Nat) (f : Nat → α)
    (hfull : v.size = v.capacity) (hpos : pos < v.size) :
    (PushBack v x).capacity
        = max (v.size + 1) (if v.capacity = 0 then 1 else v.capacity * 2) ∧
    (Insert v pos x).1.capacity
        = max (v.size + 1) (if v.capacity = 0 then 1 else v.capacity * 2) ∧
    (InsertMove v pos x).1.capacity
        = max (v.size + 1) (if v.capacity = 0 then 1 else v.capacity * 2) ∧
    ∀ n, 1 ≤ n → (pushSeq f n).capacity = 2 ^ Nat.clog 2 n := by
  refine ⟨?_, ?_, ?_, fun n hn => capacity_pushSeq f n hn⟩
  · rw [capacity_PushBack, if_pos (by omega)]
  · rw [capacity_Insert_of_ne v pos x (by omega), capacity_CheckCapacityAndResize,
      if_pos (by omega)]
  · rw [InsertMove_eq_Insert, capacity_Insert_of_ne v pos x (by omega),
      capacity_CheckCapacityAndResize, if_pos (by omega)]

/-- Witness for C1 at the full vector `[1, 2]` (size = capacity = 2), inserted
value 9, position 0, and the push sequence of length 3. -/
theorem C1_growth_policy_witness :
    (PushBack (fromList [1, 2]) (9 : Nat)).capacity
        = max ((fromList [(1 : Nat), 2]).size + 1)
            (if (fromList [(1 : Nat), 2]).capacity = 0 then 1
             else (fromList [(1 : Nat), 2]).capacity * 2) ∧
    (Insert (fromList [1, 2]) 0 (9 : Nat)).1.capacity
        = max ((fromList [(1 : Nat), 2]).size + 1)
            (if (fromList [(1 : Nat), 2]).capacity = 0 then 1
             else (fromList [(1 : Nat), 2]).capacity * 2) ∧
    (pushSeq (fun i => i) 3 : SimpleVector Nat).capacity = 2 ^ Nat.clog 2 3 := by
  have h := C1_growth_policy (fromList [1, 2]) (9 : Nat) 0 (fun i => i)
    (by decide) (by decide)
  exact ⟨h.1, h.2.1, h.2.2.2 3 (by decide)⟩

/-! ### Claim C3: the three cases of Resize -/

/-- C3: `Resize(newSize)` behaves by three cases.  If `newSize > capacity` the
capacity becomes `max(newSize, max(capacity*2, 1))`, the first `size` elements
are preserved in order, the slots `[size, newSize)` hold the default value and
the size becomes `newSize`.  If `size < newSize ≤ capacity` the slots
`[size, newSize)` become default, size becomes `newSize`, capacity unchanged.
If `newSize ≤ size` only the size changes; buffer and capacity are untouched. -/
theorem C3_resize_cases (v : SimpleVector α) (k : Nat) (hv : v.Wf) :
    (v.capacity < k →
      (Resize v k).capacity = max k (max (v.capacity * 2) 1) ∧
      (Resize v k).size = k ∧
      (∀ i, i < v.size → (Resize v k).items[i]? = v.items[i]?) ∧
      (∀ i, v.size ≤ i → i < k → (Resize v k).items[i]? = some (default : α))) ∧
    (v.size < k → k ≤ v.capacity →
      (Resize v k).capacity = v.capacity ∧
      (Resize v k).size = k ∧
      (∀ i, i < v.size → (Resize v k).items[i]? = v.items[i]?) ∧
      (∀ i, v.size ≤ i → i < k → (Resize v k).items[i]? = some (default : α))) ∧
    (k ≤ v.size →
      (Resize v k).size = k ∧
      (Resize v k).capacity = v.capacity ∧
      (Resize v k).items = v.items) := by
  obtain ⟨hsc, hlen⟩ := hv
  refine ⟨?_, ?_, ?_⟩
  · intro hg
    simp only [Resize, if_pos hg]
    refine ⟨?_, True.intro, ?_, ?_⟩
    · rcases Nat.eq_zero_or_pos v.capacity with h0 | h0
      · rw [h0]; simp
      · rw [if_neg (by omega)]; omega
    · intro i hi
      rw [List.getElem?_append_left (by simp [List.length_take]; omega),
        List.getElem?_take_of_lt hi]
    · intro i h1 h2
      rw [List.getElem?_append_right (by simp [List.length_take]; omega)]
      have hk : k ≤ max k (if v.capacity = 0 then 1 else v.capacity * 2) :=
        le_max_left _ _
      rw [List.drop_replicate, List.getElem?_replicate,
        if_pos (by simp [List.length_take]; omega)]
  · intro hs hc
    simp only [Resize, if_neg (by omega : ¬ v.capacity < k), if_pos hs]
    refine ⟨True.intro, True.intro, ?_, ?_⟩
    · intro i hi
      rw [List.getElem?_append_left (by simp [List.length_take, List.length_replicate]; omega),
        List.getElem?_append_left (by simp [List.length_take]; omega),
        List.getElem?_take_of_lt hi]
    · intro i h1 h2
      rw [List.getElem?_append_left (by simp [List.length_take, List.length_replicate]; omega),
        List.getElem?_append_right (by simp [List.length_take]; omega),
        List.getElem?_replicate, if_pos (by simp [List.length_take]; omega)]
  · intro hk
    simp only [Resize, if_neg (by omega : ¬ v.capacity < k),
      if_neg (by omega : ¬ v.size < k)]
    exact ⟨True.intro, True.intro, True.intro⟩

/-- Witness for C3 on the vector `[1, 2]` and `k = 5` (the growth case; the
other two implications have vacuous or trivially satisfiable hypotheses at
other `k`, and the theorem is applied at `k = 5` here). -/
theorem C3_resize_cases_witness :
    (Resize (fromList [(1 : Nat), 2]) 5).capacity = max 5 (max (2 * 2) 1) ∧
    (Resize (fromList [(1 : Nat), 2]) 5).size = 5 ∧
    (Resize (fromList [(1 : Nat), 2]) 5).items[0]? = (fromList [(1 : Nat), 2]).items[0]? ∧
    (Resize (fromList [(1 : Nat), 2]) 5).items[3]? = some 0 := by
  have h := C3_resize_cases (fromList [(1 : Nat), 2]) 5 (by decide)
  have hg := h.1 (by decide)
  exact ⟨hg.1, hg.2.1, hg.2.2.1 0 (by decide), hg.2.2.2 3 (by decide) (by decide)⟩

/-! ### Claim C4: Insert at end() is PushBack -/

theorem getLast_PushBack (v : SimpleVector α) (hv : v.Wf) (x : α) :
    (PushBack v x).items[(PushBack v x).size - 1]? = some x := by
  obtain ⟨h1, h2⟩ := wf_CheckCapacityAndResize v hv
  have hs := size_CheckCapacityAndResize v
  show ((CheckCapacityAndResize v).items.set
      ((CheckCapacityAndResize v).size - 1) x)[(CheckCapacityAndResize v).size - 1]?
      = some x
  rw [List.getElem?_set_self (by omega)]

/-- C4: inserting at `end()` (position = size) is exactly `PushBack`: the same
resulting vector and the returned iterator is `end() - 1`, the new last slot,
which holds the inserted element; this holds for both the copying and the
ownership-transferring overload. -/
theorem C4_insert_at_end (v : SimpleVector α) (x : α) (hv : v.Wf) :
    Insert v v.size x = (PushBack v x, (PushBack v x).size - 1) ∧
    InsertMove v v.size x = (PushBackMove v x, (PushBackMove v x).size - 1) ∧
    (Insert v v.size x).2 = (Insert v v.size x).1.size - 1 ∧
    (Insert v v.size x).1.items[(Insert v v.size x).2]? = some x ∧
    (InsertMove v v.size x).1.items[(InsertMove v v.size x).2]? = some x := by
  have h1 : Insert v v.size x = (PushBack v x, (PushBack v x).size - 1) := by
    simp [Insert]
  have h2 : InsertMove v v.size x = (PushBackMove v x, (PushBackMove v x).size - 1) := by
    simp [InsertMove]
  refine ⟨h1, h2, by rw [h1], ?_, ?_⟩
  · rw [h1]
    exact getLast_PushBack v hv x
  · rw [h2]
    exact getLast_PushBack v hv x

/-- Witness for C4 at the vector `[4, 6]` and inserted value 9. -/
theorem C4_insert_at_end_witness :
    Insert (fromList [(4 : Nat), 6]) 2 9
        = (PushBack (fromList [(4 : Nat), 6]) 9,
           (PushBack (fromList [(4 : Nat), 6]) 9).size - 1) ∧
    (Insert (fromList [(4 : Nat), 6]) 2 9).1.items[(Insert (fromList [(4 : Nat), 6]) 2 9).2]?
        = some 9 := by
  have h := C4_insert_at_end (fromList [(4 : Nat), 6]) 9 (by decide)
  exact ⟨h.1, h.2.2.2.1⟩

/-! ### Claim C6: checked access At -/

/-- C6: `At(i)` fails with the out-of-range error exactly when `i ≥ size`, and
otherwise returns the element at index `i` of the live range; equivalently it
agrees with indexing into the live prefix of the buffer.  `At` is a read-only
query: the model never alters the vector, and it is the only operation of the
embedding whose result is an `Option` (a catchable error path). -/
theorem C6_at_checked (v : SimpleVector α) (i : Nat) (hv : v.Wf) :
    (At v i = none ↔ v.size ≤ i) ∧
    At v i = (v.items.take v.size)[i]? := by
  obtain ⟨hsc, hlen⟩ := hv
  constructor
  · rw [At]
    split_ifs with h
    · simpa using h
    · simpa using h
  · rw [At]
    split_ifs with h
    · rw [eq_comm, List.getElem?_eq_none]
      simp [List.length_take]
      omega
    · have hilen : i < v.items.length := by omega
      rw [List.getElem?_take_of_lt (by omega), List.getElem?_eq_getElem hilen]
      simp [List.getD_eq_getElem?_getD, List.getElem?_eq_getElem hilen]

/-- Witness for C6 at the vector `[4, 6]`, index 1 (in range) and, via a second
application, index 5 (out of range). -/
theorem C6_at_checked_witness :
    (At (fromList [(4 : Nat), 6]) 1 = none ↔ (fromList [(4 : Nat), 6]).size ≤ 1) ∧
    (At (fromList [(4 : Nat), 6]) 5 = none ↔ (fromList [(4 : Nat), 6]).size ≤ 5) := by
  exact ⟨(C6_at_checked (fromList [(4 : Nat), 6]) 1 (by decide)).1,
         (C6_at_checked (fromList [(4 : Nat), 6]) 5 (by decide)).1⟩

/-! ### Claim C7: Reserve -/

/-- C7: `Reserve(k)` is a no-op when `k ≤ capacity`; when `k > capacity` the
new capacity is exactly `k` (never a doubled value), the size is unchanged and
the live elements are preserved in order. -/
theorem C7_reserve (v : SimpleVector α) (k : Nat) (hv : v.Wf) :
    (k ≤ v.capacity → Reserve v k = v) ∧
    (v.capacity < k →
      (Reserve v k).capacity = k ∧
      (Reserve v k).size = v.size ∧
      ∀ i, i < v.size → (Reserve v k).items[i]? = v.items[i]?) := by
  obtain ⟨hsc, hlen⟩ := hv
  constructor
  · intro h
    rw [Reserve, if_neg (by omega)]
  · intro h
    simp only [Reserve, if_pos h]
    refine ⟨True.intro, True.intro, ?_⟩
    intro i hi
    rw [List.getElem?_append_left (by simp [List.length_take]; omega),
      List.getElem?_take_of_lt hi]

/-- Witness for C7 at the vector `[4, 6]`: `Reserve 1` is a no-op and
`Reserve 10` gives capacity exactly 10 preserving the elements. -/
theorem C7_reserve_witness :
    Reserve (fromList [(4 : Nat), 6]) 1 = fromList [(4 : Nat), 6] ∧
    (Reserve (fromList [(4 : Nat), 6]) 10).capacity = 10 ∧
    (Reserve (fromList [(4 : Nat), 6]) 10).items[1]? = some 6 := by
  have h := C7_reserve (fromList [(4 : Nat), 6]) 1 (by decide)
  have h10 := C7_reserve (fromList [(4 : Nat), 6]) 10 (by decide)
  refine ⟨h.1 (by decide), (h10.2 (by decide)).1, ?_⟩
  have := (h10.2 (by decide)).2.2 1 (by decide)
  simpa using this

/-! ### Claim C5: Erase -/

/-- C5: for a non-empty vector and a position `pos` in `[begin, end)`,
`Erase(pos)` keeps the elements before `pos` and the capacity, shifts each
element after `pos` one slot toward lower indices in order, decrements the
size, and returns an iterator to the slot that now holds the element that
followed the erased one — which equals `end()` exactly when the erased
element was the last one. -/
theorem C5_erase (v : SimpleVector α) (pos : Nat) (hv : v.Wf) (hpos : pos < v.size) :
    (Erase v pos).2 = pos ∧
    (Erase v pos).1.size = v.size - 1 ∧
    (Erase v pos).1.capacity = v.capacity ∧
    (∀ i, i < pos → (Erase v pos).1.items[i]? = v.items[i]?) ∧
    (∀ i, pos ≤ i → i < v.size - 1 → (Erase v pos).1.items[i]? = v.items[i + 1]?) ∧
    ((Erase v pos).2 = (Erase v pos).1.size ↔ pos + 1 = v.size) := by
  obtain ⟨hsc, hlen⟩ := hv
  by_cases h : pos < v.size - 1
  · simp only [Erase, if_pos h]
    refine ⟨True.intro, True.intro, True.intro, ?_, ?_, by omega⟩
    · intro i hi
      rw [List.getElem?_append_left
          (by simp [List.length_append, List.length_take, List.length_drop]; omega),
        List.getElem?_append_left (by simp [List.length_take]; omega),
        List.getElem?_take_of_lt hi]
    · intro i h1 h2
      rw [List.getElem?_append_left
          (by simp [List.length_append, List.length_take, List.length_drop]; omega),
        List.getElem?_append_right (by simp [List.length_take]; omega),
        List.getElem?_take_of_lt (by simp [List.length_take]; omega),
        List.getElem?_drop]
      have he : pos + 1 + (i - (v.items.take pos).length) = i + 1 := by
        simp [List.length_take]
        omega
      rw [he]
  · simp only [Erase, if_neg h]
    refine ⟨True.intro, True.intro, True.intro, ?_, ?_, by omega⟩
    · intro i hi
      trivial
    · intro i h1 h2
      exact absurd h2 (by omega)

/-- Witness for C5 at the vector `[4, 6, 8]`, erasing position 1. -/
theorem C5_erase_witness :
    (Erase (fromList [(4 : Nat), 6, 8]) 1).2 = 1 ∧
    (Erase (fromList [(4 : Nat), 6, 8]) 1).1.size = 2 ∧
    (Erase (fromList [(4 : Nat), 6, 8]) 1).1.items[0]? = some 4 ∧
    (Erase (fromList [(4 : Nat), 6, 8]) 1).1.items[1]? = some 8 ∧
    ((Erase (fromList [(4 : Nat), 6, 8]) 1).2 = (Erase (fromList [(4 : Nat), 6, 8]) 1).1.size
      ↔ 1 + 1 = (fromList [(4 : Nat), 6, 8]).size) := by
  have h := C5_erase (fromList [(4 : Nat), 6, 8]) 1 (by decide) (by decide)
  refine ⟨h.1, h.2.1, ?_, ?_, h.2.2.2.2.2⟩
  · have := h.2.2.2.1 0 (by decide)
    simpa using this
  · have := h.2.2.2.2.1 1 (by decide) (by decide)
    simpa using this

/-! ### Claim C10: self-assignment -/

/-- C10: assigning a SimpleVector to itself, by copy assignment or by move
assignment, leaves the vector unchanged — same size, capacity and elements,
and the buffer is untouched (the early `this == &rhs` return performs no
allocation and no mutation). -/
theorem C10_self_assignment (v : SimpleVector α) :
    assignCopy v v true = v ∧ assignMove v v true = (v, v) :=
  ⟨rfl, rfl⟩

/-! ### Claim C8: ArrayPtr move semantics -/

/-- C8 counterexample: self-move-assignment `a = std::move(a)` of an
`ArrayPtr` owning the block at address 7 first frees the block and then, via
`std::exchange` on the aliased field, stores the old (now dangling) address
back: afterwards the pointer of the instance is `some 7`, not null, so the
moved-from instance is NOT empty, refuting the claim for self-assignment. -/
theorem C8_counterexample :
    (ArrayPtr.moveAssignPtr (fun _ => some 7) 0 0 []).1 0 = some 7 ∧
    (ArrayPtr.moveAssignPtr (fun _ => some 7) 0 0 []).2 = [7] ∧
    ¬ (ArrayPtr.moveAssignPtr (fun _ => some 7) 0 0 []).1 0 = none := by
  refine ⟨rfl, rfl, by decide⟩

/-- C8 amended: move construction always transfers ownership and nulls the
source; move assignment between DISTINCT objects first frees the block the
destination owned, then transfers the pointer of the source to the destination,
nulls the source and leaves every other cell untouched.  (Self-move-assignment
is excluded: there the instance ends up holding the just-freed pointer, see
the counterexample.) -/
theorem C8_move_semantics_amended (src : Option Nat) (store : Nat → Option Nat)
    (i j : Nat) (freed : List Nat) (hij : i ≠ j) :
    ArrayPtr.moveCtorPtr src = (src, none) ∧
    (ArrayPtr.moveAssignPtr store i j freed).1 i = store j ∧
    (ArrayPtr.moveAssignPtr store i j freed).1 j = none ∧
    (∀ k, k ≠ i → k ≠ j → (ArrayPtr.moveAssignPtr store i j freed).1 k = store k) ∧
    (ArrayPtr.moveAssignPtr store i j freed).2
      = (match store i with | some p => freed ++ [p] | none => freed) := by
  refine ⟨rfl, ?_, ?_, ?_, rfl⟩
  · simp [ArrayPtr.moveAssignPtr]
  · simp [ArrayPtr.moveAssignPtr, Ne.symm hij]
  · intro k hk1 hk2
    simp [ArrayPtr.moveAssignPtr, hk1, hk2]

/-- Witness for the amended C8 with the destination at cell 0 owning block 7,
the source at cell 1 owning block 9, and a bystander cell 2. -/
theorem C8_move_semantics_amended_witness :
    (ArrayPtr.moveAssignPtr (fun k => if k = 0 then some 7 else some 9) 0 1 []).1 0
        = some 9 ∧
    (ArrayPtr.moveAssignPtr (fun k => if k = 0 then some 7 else some 9) 0 1 []).1 1
        = none ∧
    (ArrayPtr.moveAssignPtr (fun k => if k = 0 then some 7 else some 9) 0 1 []).1 2
        = some 9 ∧
    (ArrayPtr.moveAssignPtr (fun k => if k = 0 then some 7 else some 9) 0 1 []).2
        = [7] := by
  have h := C8_move_semantics_amended (some 3)
    (fun k => if k = 0 then some 7 else some 9) 0 1 [] (by decide)
  refine ⟨?_, h.2.2.1, ?_, ?_⟩
  · have := h.2.1
    simpa using this
  · have := h.2.2.2.1 2 (by decide) (by decide)
    simpa using this
  · have := h.2.2.2.2
    simpa using this

/-! ### Claim C9: Insert then Erase round trip -/

/-- C9: on a vector with spare capacity (no growth-triggered reallocation),
inserting a value at any valid position `pos ∈ [0, size]` and then erasing at
the position the insert returned restores the original size, capacity and
live element sequence. -/
theorem C9_insert_erase_roundtrip (v : SimpleVector α) (pos : Nat) (x : α)
    (hv : v.Wf) (hroom : v.size < v.capacity) (hpos : pos ≤ v.size) :
    (Erase (Insert v pos x).1 (Insert v pos x).2).1.size = v.size ∧
    (Erase (Insert v pos x).1 (Insert v pos x).2).1.capacity = v.capacity ∧
    ∀ i, i < v.size →
      (Erase (Insert v pos x).1 (Insert v pos x).2).1.items[i]? = v.items[i]? := by
  obtain ⟨hsc, hlen⟩ := hv
  have hw : CheckCapacityAndResize v = { v with size := v.size + 1 } := by
    rw [CheckCapacityAndResize, if_neg (by omega)]
  rcases Nat.eq_or_lt_of_le hpos with hpe | hplt
  · -- insertion at end(): PushBack then Erase of the last element
    have h1 : Insert v pos x = (PushBack v x, (PushBack v x).size - 1) := by
      simp [Insert, hpe]
    have hpb_size : (PushBack v x).size = v.size + 1 := size_PushBack v x
    have hpb_items : (PushBack v x).items = v.items.set v.size x := by
      show ((CheckCapacityAndResize v).items.set
          ((CheckCapacityAndResize v).size - 1) x) = _
      rw [hw]
      dsimp only
      norm_num
    have hpb_cap : (PushBack v x).capacity = v.capacity := by
      show (CheckCapacityAndResize v).capacity = _
      rw [hw]
    rw [h1]
    dsimp only
    rw [hpb_size]
    simp only [Erase]
    rw [hpb_size, if_neg (by omega)]
    refine ⟨by dsimp only; omega, by dsimp only; rw [hpb_cap], ?_⟩
    intro i hi
    dsimp only
    rw [hpb_items, List.getElem?_set_ne (by omega)]
  · -- insertion strictly inside the live range
    have hpe : pos ≠ v.size := by omega
    rw [Insert_eq_of_ne v pos x hpe, hw]
    dsimp only
    have hlenI : ((v.items.take (pos + 1)
        ++ (v.items.drop pos).take (v.size + 1 - 1 - pos)
        ++ v.items.drop (v.size + 1)).set pos x).length = v.items.length := by
      simp [List.length_set, List.length_append, List.length_take, List.length_drop]
      omega
    have hIlt : ∀ i, i < pos →
        ((v.items.take (pos + 1)
          ++ (v.items.drop pos).take (v.size + 1 - 1 - pos)
          ++ v.items.drop (v.size + 1)).set pos x)[i]? = v.items[i]? := by
      intro i hi
      rw [List.getElem?_set_ne (by omega),
        List.getElem?_append_left
          (by simp [List.length_append, List.length_take, List.length_drop]; omega),
        List.getElem?_append_left (by simp [List.length_take]; omega),
        List.getElem?_take_of_lt (by omega)]
    have hImid : ∀ i, pos ≤ i → i < v.size →
        ((v.items.take (pos + 1)
          ++ (v.items.drop pos).take (v.size + 1 - 1 - pos)
          ++ v.items.drop (v.size + 1)).set pos x)[i + 1]? = v.items[i]? := by
      intro i h1 h2
      rw [List.getElem?_set_ne (by omega),
        List.getElem?_append_left
          (by simp [List.length_append, List.length_take, List.length_drop]; omega),
        List.getElem?_append_right (by simp [List.length_take]; omega)]
      have hlt : i + 1 - (v.items.take (pos + 1)).length < v.size + 1 - 1 - pos := by
        simp [List.length_take]
        omega
      rw [List.getElem?_take_of_lt hlt, List.getElem?_drop]
      have he : pos + (i + 1 - (v.items.take (pos + 1)).length) = i := by
        simp [List.length_take]
        omega
      rw [he]
    simp only [Erase]
    split_ifs with hc
    case neg =>
      exfalso
      omega
    refine ⟨by dsimp only; omega, by dsimp only, ?_⟩
    intro i hi
    dsimp only
    rcases Nat.lt_or_ge i pos with hip | hip
    · rw [List.getElem?_append_left
          (by simp [List.length_append, List.length_take, List.length_drop, hlenI]; omega),
        List.getElem?_append_left (by simp [List.length_take, hlenI]; omega),
        List.getElem?_take_of_lt hip, hIlt i hip]
    · rw [List.getElem?_append_left
          (by simp [List.length_append, List.length_take, List.length_drop, hlenI]; omega),
        List.getElem?_append_right (by simp [List.length_take, hlenI]; omega)]
      have hlt2 : i - ((((v.items.take (pos + 1)
          ++ (v.items.drop pos).take (v.size + 1 - 1 - pos)
          ++ v.items.drop (v.size + 1)).set pos x)).take pos).length
          < v.size + 1 - 1 - pos := by
        simp [List.length_take, hlenI]
        omega
      rw [List.getElem?_take_of_lt hlt2, List.getElem?_drop]
      have he2 : pos + 1 + (i - ((((v.items.take (pos + 1)
          ++ (v.items.drop pos).take (v.size + 1 - 1 - pos)
          ++ v.items.drop (v.size + 1)).set pos x)).take pos).length) = i + 1 := by
        simp [List.length_take, hlenI]
        omega
      rw [he2, hImid i hip hi]

/-- Witness for C9 at the vector `[4, 6]` widened to capacity 4 by `Reserve`,
inserting 9 at position 1 and erasing at the returned position. -/
theorem C9_insert_erase_roundtrip_witness :
    (Erase (Insert (Reserve (fromList [(4 : Nat), 6]) 4) 1 9).1
        (Insert (Reserve (fromList [(4 : Nat), 6]) 4) 1 9).2).1.size
      = (Reserve (fromList [(4 : Nat), 6]) 4).size ∧
    (Erase (Insert (Reserve (fromList [(4 : Nat), 6]) 4) 1 9).1
        (Insert (Reserve (fromList [(4 : Nat), 6]) 4) 1 9).2).1.items[0]?
      = (Reserve (fromList [(4 : Nat), 6]) 4).items[0]? ∧
    (Erase (Insert (Reserve (fromList [(4 : Nat), 6]) 4) 1 9).1
        (Insert (Reserve (fromList [(4 : Nat), 6]) 4) 1 9).2).1.items[1]?
      = (Reserve (fromList [(4 : Nat), 6]) 4).items[1]? := by
  have h := C9_insert_erase_roundtrip (Reserve (fromList [(4 : Nat), 6]) 4) 1 9
    (by decide) (by decide) (by decide)
  exact ⟨h.1, h.2.2 0 (by decide), h.2.2 1 (by decide)⟩

end SimpleVector
